import Mathlib

/-!
Shallow embedding of the Tabdeel Pulse application (React SPA front end in
`src/components` and `src/hooks`, Express/Postgres backend in `src/server.js`),
together with theorems settling the frozen claims about its specification.

Conventions of the embedding:
* SQL rows become Lean structures; a table is a `List` of rows.
* JavaScript string/number "truthiness" checks (`!x`) are modelled explicitly:
  a missing field is `Option.none`, and the empty string / zero are falsy.
* HTTP outcomes are modelled with explicit status codes or small result types.
* Monetary amounts (SQL `DECIMAL(12,2)`) are modelled as integer fils
  (hundredths); only comparisons and equality of amounts matter to the claims.
-/

/-- A role row (`roles` table, and the `Role` objects served by
`GET /api/roles`): only the fields the claims depend on are carried. -/
structure Role where
  id : String
  name : String
  permissions : List String
deriving DecidableEq

/-- A raw user as held by the front end before enhancement
(`rawAllUsers` / `activeUser` in `src/hooks/useAuth.ts`). -/
structure RawUser where
  id : Nat
  name : String
  email : String
  roleId : String
deriving DecidableEq

/-- A user after `enhanceUser` (`src/hooks/useAuth.ts` lines 39-47): the role
name, the flattened permission list and the derived financial limit. -/
structure EnhancedUser where
  id : Nat
  name : String
  email : String
  roleId : String
  role : String
  permissions : List String
  financialLimit : Int
deriving DecidableEq

/-- `enhanceUser` from `src/hooks/useAuth.ts` lines 39-47:
`const role = roles.find(r => r.id === user.roleId)`; the permissions are the
role's list (or `[]` when the role is not found) and
`financialLimit = role?.id === 'Administrator' ? 100000 : (role?.id === 'Manager' ? 50000 : 0)`. -/
def enhanceUser (roles : List Role) (u : RawUser) : EnhancedUser :=
  match roles.find? (fun r => r.id = u.roleId) with
  | some role =>
      { id := u.id, name := u.name, email := u.email, roleId := u.roleId,
        role := role.name, permissions := role.permissions,
        financialLimit :=
          if role.id = "Administrator" then 100000
          else if role.id = "Manager" then 50000 else 0 }
  | none =>
      { id := u.id, name := u.name, email := u.email, roleId := u.roleId,
        role := u.roleId, permissions := [],
        financialLimit := 0 }

/-- `hasPermission` from `src/hooks/useAuth.ts` lines 255-261: `false` when no
user is logged in; otherwise `true` when the user's permission list contains
`'system:admin'`, and otherwise membership of the requested permission. -/
def hasPermission (user : Option EnhancedUser) (permission : String) : Bool :=
  match user with
  | none => false
  | some u =>
      if u.permissions.contains "system:admin" then true
      else u.permissions.contains permission

/-- A concrete enhanced user whose permission list is exactly
`["system:admin"]`, as produced e.g. by `enhanceUser` for a user whose role
carries only that permission. -/
def adminOnlyUser : EnhancedUser :=
  { id := 7, name := "Root", email := "root@tabdeel.com", roleId := "Root",
    role := "Root", permissions := ["system:admin"], financialLimit := 0 }

/-- C1, counterexample: `hasPermission` is not a flat set-membership test.
For a logged-in user whose permission list is exactly `["system:admin"]`, the
check `hasPermission "users:create"` returns `true` although `"users:create"`
is not a member of that permission list (`src/hooks/useAuth.ts` line 257 short-
circuits on `system:admin`). -/
theorem C1_counterexample :
    hasPermission (some adminOnlyUser) "users:create" = true ∧
    adminOnlyUser.permissions.contains "users:create" = false := by
  decide

/-- C1, amended: for every logged-in user and permission `p`, `hasPermission p`
returns `true` exactly when `p` is a member of the current user's permission
list or that list contains `"system:admin"`; it returns `false` whenever no
user is logged in. -/
theorem C1_hasPermission_characterisation :
    (∀ (u : EnhancedUser) (p : String),
      hasPermission (some u) p =
        (u.permissions.contains p || u.permissions.contains "system:admin")) ∧
    (∀ p : String, hasPermission none p = false) := by
  refine ⟨fun u p => ?_, fun _ => rfl⟩
  simp only [hasPermission]
  by_cases h : u.permissions.contains "system:admin" = true <;>
    simp [h, Bool.or_comm]

/-- One entry of a payment instruction history (`history JSONB`): the entries
written by the server on creation (`server.js` line 505) and by the UI on
approval or rejection (`NotificationsPage.tsx` line 192). -/
structure HistoryEntry where
  status : String
  user : String
  timestamp : String
  remarks : Option String
deriving DecidableEq

/-- A `payment_instructions` row (`server.js` lines 115-129). The SQL default
for `status` is the string `Pending`; the column is a plain `VARCHAR(50)` with
no CHECK constraint. Amounts are integer fils. -/
structure PaymentInstruction where
  id : Nat
  payee : String
  amount : Int
  dueDate : String
  isRecurring : Bool
  nextDueDate : Option String
  balance : Option Int
  status : String
  submittedBy : String
  history : List HistoryEntry
deriving DecidableEq

/-- Request body of `POST /api/finance/payment-instructions`
(`server.js` lines 502-518). -/
structure NewInstructionRequest where
  payee : String
  amount : Int
  dueDate : String
  isRecurring : Bool
  nextDueDate : Option String
  balance : Option Int
  submittedBy : String
deriving DecidableEq

/-- `POST /api/finance/payment-instructions` (`server.js` lines 502-518):
rejects with 400 when `payee`, `amount`, `dueDate` or `submittedBy` is falsy
(empty string, zero); otherwise inserts a row whose `status` is the DDL
default `Pending` (the INSERT names no status column) and whose history is the
single creation entry. Returns the new table and the inserted row. -/
def postPaymentInstruction (rows : List PaymentInstruction) (nextId : Nat)
    (req : NewInstructionRequest) (now : String) :
    Except Nat (List PaymentInstruction × PaymentInstruction) :=
  if req.payee = "" || req.amount = 0 || req.dueDate = "" || req.submittedBy = "" then
    .error 400
  else
    let inst : PaymentInstruction :=
      { id := nextId, payee := req.payee, amount := req.amount,
        dueDate := req.dueDate, isRecurring := req.isRecurring,
        nextDueDate := req.nextDueDate, balance := req.balance,
        status := "Pending", submittedBy := req.submittedBy,
        history := [{ status := "Pending", user := req.submittedBy,
                      timestamp := now, remarks := some "Instruction created." }] }
    .ok (rows ++ [inst], inst)

/-- `PUT /api/finance/payment-instructions/:id` (`server.js` lines 520-533):
400 when `status` or `history` is missing (or the status string is falsy),
404 when no row has the given id, and otherwise it overwrites the row's
`status` and `history` with exactly the supplied values - the handler never
inspects the current status and never restricts the new one. -/
def putPaymentInstruction (rows : List PaymentInstruction) (id : Nat)
    (status : Option String) (history : Option (List HistoryEntry)) :
    Except Nat (List PaymentInstruction) :=
  match status, history with
  | some st, some h =>
      if st = "" then .error 400
      else if rows.any (fun r => r.id = id) then
        .ok (rows.map (fun r => if r.id = id then { r with status := st, history := h } else r))
      else .error 404
  | _, _ => .error 400

/-- `canApprove` from the `Actions` component (`NotificationsPage.tsx` line
256): the `finance:approve` permission check and the financial-limit bound. -/
def canApprove (u : EnhancedUser) (inst : PaymentInstruction) : Bool :=
  hasPermission (some u) "finance:approve" && decide (inst.amount ≤ u.financialLimit)

/-- The `Actions` component (`NotificationsPage.tsx` lines 255-268) renders
the approve and reject buttons exactly when the instruction is `Pending` and
`canApprove` holds; otherwise only a view-details button is shown. -/
def actionsOffered (u : EnhancedUser) (inst : PaymentInstruction) : Bool :=
  decide (inst.status = "Pending") && canApprove u inst

/-- `handleAction` (`NotificationsPage.tsx` lines 187-205): looks the
instruction up in local state (returning unchanged when absent), appends a
history entry for the new status and issues the PUT above. -/
def handleAction (rows : List PaymentInstruction) (u : EnhancedUser)
    (id : Nat) (newStatus : String) (now : String) :
    Except Nat (List PaymentInstruction) :=
  match rows.find? (fun inst => inst.id = id) with
  | none => .ok rows
  | some instruction =>
      let updatedHistory := instruction.history ++
        [{ status := newStatus, user := u.name, timestamp := now, remarks := none }]
      putPaymentInstruction rows id (some newStatus) (some updatedHistory)

/-- Whether the UI can fire `handleAction` at all: the buttons bound to it
exist only for `newStatus` in `{Approved, Rejected}` (the parameter type of
`handleAction`) and only on an instruction for which `Actions` offered them. -/
def uiActionEnabled (rows : List PaymentInstruction) (u : EnhancedUser)
    (id : Nat) (newStatus : String) : Bool :=
  (newStatus = "Approved" || newStatus = "Rejected") &&
    match rows.find? (fun inst => inst.id = id) with
    | some inst => actionsOffered u inst
    | none => false

/-- The operations the application itself performs on the payment-instruction
table: creating an instruction (`handleAddInstruction` posting to the server)
and the approve/reject buttons (`Actions` guarding `handleAction`). -/
inductive PIOp where
  | create (req : NewInstructionRequest) (now : String)
  | uiAction (u : EnhancedUser) (id : Nat) (newStatus : String) (now : String)

/-- Payment-instruction table plus the next SERIAL id. -/
structure PIState where
  rows : List PaymentInstruction
  nextId : Nat

/-- Effect of one application-level operation on the stored table; failed
requests leave the table unchanged. -/
def applyPIOp (s : PIState) (op : PIOp) : PIState :=
  match op with
  | .create req now =>
      match postPaymentInstruction s.rows s.nextId req now with
      | .ok (rows', _) => ⟨rows', s.nextId + 1⟩
      | .error _ => s
  | .uiAction u id newStatus now =>
      if uiActionEnabled s.rows u id newStatus then
        match handleAction s.rows u id newStatus now with
        | .ok rows' => ⟨rows', s.nextId⟩
        | .error _ => s
      else s

/-- Status of the row with the given id, as the server reads it back. -/
def statusOf (rows : List PaymentInstruction) (id : Nat) : Option String :=
  (rows.find? (fun r => r.id = id)).map (fun r => r.status)

/-- Auxiliary: the row update performed by a successful PUT sets the addressed
id's status to the supplied string. -/
theorem statusOf_update_self (st : String) (h : List HistoryEntry) (id : Nat) :
    ∀ rows : List PaymentInstruction,
      rows.any (fun r => r.id = id) = true →
      statusOf (rows.map (fun r =>
        if r.id = id then { r with status := st, history := h } else r)) id = some st
  | [], hany => by simp at hany
  | r :: rows, hany => by
      by_cases hr : r.id = id
      · simp only [List.map_cons, if_pos hr, statusOf]
        rw [List.find?_cons_of_pos _ (by simpa using hr)]
        rfl
      · have hrest : rows.any (fun r => r.id = id) = true := by
          simp only [List.any_cons, Bool.or_eq_true, decide_eq_true_eq] at hany
          rcases hany with hc | hc
          · exact absurd hc hr
          · exact hc
        simp only [List.map_cons, if_neg hr]
        simp only [statusOf] at *
        rw [List.find?_cons_of_neg _ (by simpa using hr)]
        exact statusOf_update_self st h id rows hrest

/-- Auxiliary: the row update performed by a successful PUT leaves the status
of every other id unchanged. -/
theorem statusOf_update_other (st : String) (h : List HistoryEntry) (id i : Nat)
    (hi : i ≠ id) :
    ∀ rows : List PaymentInstruction,
      statusOf (rows.map (fun r =>
        if r.id = id then { r with status := st, history := h } else r)) i =
        statusOf rows i
  | [] => rfl
  | r :: rows => by
      by_cases hri : r.id = i
      · have hr : ¬ r.id = id := by rw [hri]; exact fun hh => hi (hri ▸ hh)
        simp only [List.map_cons, if_neg hr, statusOf]
        rw [List.find?_cons_of_pos _ (by simpa using hri),
          List.find?_cons_of_pos _ (by simpa using hri)]
      · by_cases hr : r.id = id
        · simp only [List.map_cons, if_pos hr, statusOf]
          rw [List.find?_cons_of_neg _ (by simpa using hri),
            List.find?_cons_of_neg _ (by simpa using hri)]
          exact statusOf_update_other st h id i hi rows
        · simp only [List.map_cons, if_neg hr, statusOf]
          rw [List.find?_cons_of_neg _ (by simpa using hri),
            List.find?_cons_of_neg _ (by simpa using hri)]
          exact statusOf_update_other st h id i hi rows

/-- Auxiliary: a successful `PUT /api/finance/payment-instructions/:id` sets
the addressed row's status to exactly the supplied string and leaves every
other id's status unchanged. -/
theorem statusOf_put_ok {rows : List PaymentInstruction} {id : Nat}
    {st : String} {h : List HistoryEntry} {rows' : List PaymentInstruction}
    (hok : putPaymentInstruction rows id (some st) (some h) = .ok rows') :
    statusOf rows' id = some st ∧
    ∀ i, i ≠ id → statusOf rows' i = statusOf rows i := by
  simp only [putPaymentInstruction] at hok
  by_cases hst : st = ""
  · rw [if_pos hst] at hok; exact absurd hok (by simp)
  rw [if_neg hst] at hok
  by_cases hany : rows.any (fun r => r.id = id) = true
  · rw [if_pos hany] at hok
    have hrows' : rows' = rows.map (fun r =>
        if r.id = id then { r with status := st, history := h } else r) := by
      cases hok; rfl
    subst hrows'
    exact ⟨statusOf_update_self st h id rows hany,
      fun i hi => statusOf_update_other st h id i hi rows⟩
  · rw [if_neg hany] at hok; exact absurd hok (by simp)

/-- Auxiliary: appending rows (as an INSERT does) does not change the status
read back for an id already resolving to a row. -/
theorem statusOf_append_of_some {rows : List PaymentInstruction} {i : Nat} {st : String}
    (hs : statusOf rows i = some st) (l : List PaymentInstruction) :
    statusOf (rows ++ l) i = some st := by
  simp only [statusOf] at hs ⊢
  cases hr : rows.find? (fun r => r.id = i) with
  | none => rw [hr] at hs; exact absurd hs (by simp)
  | some r =>
      rw [hr] at hs
      rw [List.find?_append, hr]
      exact hs

/-- Auxiliary: the approve/reject buttons are only rendered on a `Pending`
instruction (`NotificationsPage.tsx` line 258). -/
theorem actionsOffered_pending {u : EnhancedUser} {inst : PaymentInstruction}
    (h : actionsOffered u inst = true) : inst.status = "Pending" := by
  simp only [actionsOffered, Bool.and_eq_true, decide_eq_true_eq] at h
  exact h.1

/-- A concrete already-approved payment instruction. -/
def approvedSample : PaymentInstruction :=
  { id := 1, payee := "Acme Trading", amount := 250000, dueDate := "2025-02-01",
    isRecurring := false, nextDueDate := none, balance := none,
    status := "Approved", submittedBy := "Manager Mike",
    history :=
      [{ status := "Pending", user := "Manager Mike", timestamp := "t0",
         remarks := some "Instruction created." },
       { status := "Approved", user := "Admin User", timestamp := "t1",
         remarks := none }] }

/-- A concrete pending payment instruction. -/
def pendingSample : PaymentInstruction :=
  { id := 2, payee := "Gulf Utilities", amount := 30000, dueDate := "2025-03-10",
    isRecurring := false, nextDueDate := none, balance := none,
    status := "Pending", submittedBy := "Manager Mike",
    history :=
      [{ status := "Pending", user := "Manager Mike", timestamp := "t0",
         remarks := some "Instruction created." }] }

/-- C2, counterexample: the status update endpoint itself enforces no
transition discipline. Applied to the table holding only the already-approved
instruction `approvedSample`, a PUT carrying status `Pending` succeeds and
moves the instruction out of `Approved`, contradicting the claim that no
operation moves an instruction out of `Approved` or `Rejected`
(`server.js` lines 520-533 write the supplied status unconditionally). -/
theorem C2_counterexample :
    approvedSample.status = "Approved" ∧
    putPaymentInstruction [approvedSample] 1 (some "Pending")
        (some approvedSample.history) =
      .ok [{ approvedSample with status := "Pending" }] :=
  ⟨rfl, rfl⟩

/-- C2, amended: a payment instruction progresses along
Pending to Approved/Rejected under the operations the application performs:
every instruction created through the POST endpoint starts as `Pending`; the
approve/reject buttons are offered only on a `Pending` instruction and, when
fired, set its status to the chosen `Approved` or `Rejected`; and no
application-level operation moves an instruction out of `Approved` or
`Rejected`. (The bare server PUT endpoint, however, enforces nothing: it
overwrites the status with any supplied value, as the counterexample shows.) -/
theorem C2_payment_lifecycle :
    (∀ rows nextId req now out,
        postPaymentInstruction rows nextId req now = .ok out →
        out.2.status = "Pending") ∧
    (∀ (u : EnhancedUser) (inst : PaymentInstruction),
        actionsOffered u inst = true → inst.status = "Pending") ∧
    (∀ rows (u : EnhancedUser) id newStatus now rows',
        uiActionEnabled rows u id newStatus = true →
        handleAction rows u id newStatus now = .ok rows' →
        statusOf rows' id = some newStatus) ∧
    (∀ s op i st, statusOf s.rows i = some st →
        (st = "Approved" ∨ st = "Rejected") →
        statusOf (applyPIOp s op).rows i = some st) := by
  refine ⟨?_, fun u inst h => actionsOffered_pending h, ?_, ?_⟩
  · intro rows nextId req now out hok
    simp only [postPaymentInstruction] at hok
    split at hok
    · exact absurd hok (by simp)
    · cases hok; rfl
  · intro rows u id newStatus now rows' hen hact
    simp only [uiActionEnabled, Bool.and_eq_true] at hen
    obtain ⟨hns, hfind⟩ := hen
    cases hf : rows.find? (fun inst => inst.id = id) with
    | none => rw [hf] at hfind; exact absurd hfind (by simp)
    | some instruction =>
        simp only [handleAction, hf] at hact
        exact (statusOf_put_ok hact).1
  · intro s op i st hs hst
    cases op with
    | create req now =>
        simp only [applyPIOp]
        cases hpost : postPaymentInstruction s.rows s.nextId req now with
        | error e => exact hs
        | ok out =>
            obtain ⟨rows', inst⟩ := out
            simp only [postPaymentInstruction] at hpost
            split at hpost
            · exact absurd hpost (by simp)
            · cases hpost
              exact statusOf_append_of_some hs _
    | uiAction u id newStatus now =>
        simp only [applyPIOp]
        by_cases hen : uiActionEnabled s.rows u id newStatus = true
        · rw [if_pos hen]
          simp only [uiActionEnabled, Bool.and_eq_true] at hen
          obtain ⟨hns, hfind⟩ := hen
          cases hf : s.rows.find? (fun inst => inst.id = id) with
          | none => rw [hf] at hfind; exact absurd hfind (by simp)
          | some instruction =>
              rw [hf] at hfind
              have hpend : instruction.status = "Pending" := actionsOffered_pending hfind
              have hiid : instruction.id = id := by simpa using List.find?_some hf
              by_cases hii : i = id
              · subst hii
                have hsv : statusOf s.rows i = some instruction.status := by
                  simp only [statusOf, hf]; rfl
                rw [hsv] at hs
                have hstp : st = "Pending" := by
                  have h2 : instruction.status = st := by simpa using hs
                  rw [← h2]; exact hpend
                rcases hst with h1 | h1 <;> rw [h1] at hstp <;> exact absurd hstp (by decide)
              · simp only [handleAction, hf]
                cases hput : putPaymentInstruction s.rows id (some newStatus)
                    (some (instruction.history ++
                      [{ status := newStatus, user := u.name, timestamp := now,
                         remarks := none }])) with
                | error e => exact hs
                | ok rows' =>
                    have := (statusOf_put_ok hput).2 i hii
                    rw [this]
                    exact hs
        · rw [if_neg hen]
          exact hs

/-- C2, witness: the lifecycle theorem applied at a concrete state: a UI
action aimed at the already-approved instruction leaves its status
`Approved`. -/
theorem C2_witness :
    statusOf (applyPIOp ⟨[approvedSample], 5⟩
        (PIOp.uiAction adminOnlyUser 1 "Rejected" "t2")).rows 1 = some "Approved" :=
  C2_payment_lifecycle.2.2.2 ⟨[approvedSample], 5⟩
    (PIOp.uiAction adminOnlyUser 1 "Rejected" "t2") 1 "Approved" (by decide)
    (Or.inl rfl)

/-- The three-state status enum named by the spec: Pending, Approved,
Rejected. (This predicate follows the words of the spec; the code stores a
plain string.) -/
def specStatusEnum (st : String) : Bool :=
  st = "Pending" || st = "Approved" || st = "Rejected"

/-- C3, counterexample: the server enforces no status-enum membership. A PUT
carrying the status string `On Hold` succeeds and stores it verbatim, so the
table then holds a payment instruction whose status is none of Pending,
Approved, Rejected (`payment_instructions.status` is a plain `VARCHAR(50)` and
`server.js` lines 520-533 write the request value unchecked). -/
theorem C3_counterexample :
    putPaymentInstruction [pendingSample] 2 (some "On Hold")
        (some pendingSample.history) =
      .ok [{ pendingSample with status := "On Hold" }] ∧
    specStatusEnum "On Hold" = false :=
  ⟨rfl, rfl⟩

/-- C3, amended: creation always yields status `Pending` (a member of the
enum); an update stores exactly the status supplied in the request, so enum
membership after an update holds only when the caller supplies an enum value;
under the operations the application itself performs (create, and the guarded
approve/reject buttons, which only ever send `Approved` or `Rejected`), enum
membership of every row is preserved. -/
theorem C3_status_enum :
    (∀ rows nextId req now out,
        postPaymentInstruction rows nextId req now = .ok out →
        specStatusEnum out.2.status = true) ∧
    (∀ rows id st h rows',
        putPaymentInstruction rows id (some st) (some h) = .ok rows' →
        statusOf rows' id = some st) ∧
    (∀ s op, (∀ r ∈ s.rows, specStatusEnum r.status = true) →
        ∀ r ∈ (applyPIOp s op).rows, specStatusEnum r.status = true) := by
  refine ⟨?_, ?_, ?_⟩
  · intro rows nextId req now out hok
    simp only [postPaymentInstruction] at hok
    split at hok
    · exact absurd hok (by simp)
    · cases hok; rfl
  · intro rows id st h rows' hok
    exact (statusOf_put_ok hok).1
  · intro s op hinv
    cases op with
    | create req now =>
        simp only [applyPIOp]
        cases hpost : postPaymentInstruction s.rows s.nextId req now with
        | error e => exact hinv
        | ok out =>
            obtain ⟨rows', inst⟩ := out
            simp only [postPaymentInstruction] at hpost
            split at hpost
            · exact absurd hpost (by simp)
            · cases hpost
              intro r hr
              rcases List.mem_append.mp hr with hr | hr
              · exact hinv r hr
              · rcases List.mem_singleton.mp hr with rfl
                rfl
    | uiAction u id newStatus now =>
        simp only [applyPIOp]
        by_cases hen : uiActionEnabled s.rows u id newStatus = true
        · rw [if_pos hen]
          have hns : newStatus = "Approved" ∨ newStatus = "Rejected" := by
            simp only [uiActionEnabled, Bool.and_eq_true, Bool.or_eq_true,
              decide_eq_true_eq] at hen
            exact hen.1
          cases hf : s.rows.find? (fun inst => inst.id = id) with
          | none =>
              simp only [handleAction, hf]
              exact hinv
          | some instruction =>
              simp only [handleAction, hf]
              cases hput : putPaymentInstruction s.rows id (some newStatus)
                  (some (instruction.history ++
                    [{ status := newStatus, user := u.name, timestamp := now,
                       remarks := none }])) with
              | error e => exact hinv
              | ok rows' =>
                  intro r hr
                  simp only [putPaymentInstruction] at hput
                  split at hput
                  · exact absurd hput (by simp)
                  · split at hput
                    · have hrows' : rows' = s.rows.map (fun r =>
                          if r.id = id then
                            { r with
                              status := newStatus
                              history := instruction.history ++
                                [{ status := newStatus, user := u.name,
                                   timestamp := now, remarks := none }] }
                          else r) := by
                        cases hput; rfl
                      subst hrows'
                      rcases List.mem_map.mp hr with ⟨a, ha, rfl⟩
                      by_cases hid : a.id = id
                      · rw [if_pos hid]
                        rcases hns with h1 | h1 <;> rw [h1] <;> rfl
                      · rw [if_neg hid]
                        exact hinv a ha
                    · exact absurd hput (by simp)
        · rw [if_neg hen]
          exact hinv

/-- C3, witness: the amended theorem applied at a concrete input: updating the
pending sample instruction to `Approved` stores exactly `Approved`. -/
theorem C3_witness :
    statusOf [{ pendingSample with
        status := "Approved"
        history := ([] : List HistoryEntry) }] 2 = some "Approved" :=
  C3_status_enum.2.1 [pendingSample] 2 "Approved" []
    [{ pendingSample with status := "Approved", history := ([] : List HistoryEntry) }] rfl

/-- The Administrator role after its permission list has been edited down to
`["system:admin"]` (role permissions are freely editable through
`PUT /api/roles/:id`). -/
def strippedAdminRole : Role :=
  { id := "Administrator", name := "Administrator",
    permissions := ["system:admin"] }

/-- The seeded administrator account (`server.js` line 231). -/
def adminRaw : RawUser :=
  { id := 1, name := "Admin User", email := "admin@tabdeel.com",
    roleId := "Administrator" }

/-- An enhanced user holding the seeded Manager permission set. -/
def approverUser : EnhancedUser :=
  { id := 2, name := "Manager Mike", email := "manager@tabdeel.com",
    roleId := "Manager", role := "Manager",
    permissions := ["users:create", "users:read", "users:update",
      "finance:approve", "jobs:assign", "projects:create", "projects:update",
      "announcements:create"],
    financialLimit := 50000 }

/-- C10, counterexample: holding the `finance:approve` permission is not
necessary. When the Administrator role's permission list has been reduced to
`["system:admin"]`, the enhanced administrator is still offered the
approve/reject buttons on a pending instruction within their financial limit,
although `finance:approve` is not among their permissions - the
`hasPermission` bypass at `useAuth.ts` line 257 also unlocks the buttons. -/
theorem C10_counterexample :
    actionsOffered (enhanceUser [strippedAdminRole] adminRaw) pendingSample = true ∧
    (enhanceUser [strippedAdminRole] adminRaw).permissions.contains
      "finance:approve" = false := by
  decide

/-- C10, amended: the approve/reject buttons appear only on a pending
instruction, only when `hasPermission` accepts `finance:approve` - that is,
when the user's permission list contains `finance:approve` or contains
`system:admin` - and only when the amount does not exceed the user's
financial limit; that limit is derived solely from the role id as 100000 for
Administrator, 50000 for Manager and 0 for every other role (given that the
user's role id resolves in the role list). -/
theorem C10_ui_approval_guard :
    (∀ (u : EnhancedUser) (inst : PaymentInstruction),
        actionsOffered u inst = true →
          inst.status = "Pending" ∧
          (u.permissions.contains "finance:approve" = true ∨
            u.permissions.contains "system:admin" = true) ∧
          inst.amount ≤ u.financialLimit) ∧
    (∀ (roles : List Role) (u : RawUser) (r : Role),
        roles.find? (fun x => x.id = u.roleId) = some r →
        (enhanceUser roles u).financialLimit =
          if u.roleId = "Administrator" then (100000 : Int)
          else if u.roleId = "Manager" then 50000 else 0) := by
  constructor
  · intro u inst h
    have hpend := actionsOffered_pending h
    simp only [actionsOffered, canApprove, hasPermission, Bool.and_eq_true,
      decide_eq_true_eq] at h
    obtain ⟨-, hperm, hle⟩ := h
    refine ⟨hpend, ?_, hle⟩
    by_cases hadm : u.permissions.contains "system:admin" = true
    · exact Or.inr hadm
    · rw [if_neg hadm] at hperm
      exact Or.inl hperm
  · intro roles u r hfind
    have hrid : r.id = u.roleId := by simpa using List.find?_some hfind
    simp only [enhanceUser, hfind]
    rw [hrid]

/-- C10, witness: the guard theorem applied at concrete inputs: the seeded
manager sees the buttons on the pending sample instruction, and the enhanced
administrator financial limit evaluates through the role-id formula. -/
theorem C10_witness :
    (pendingSample.status = "Pending" ∧
      (approverUser.permissions.contains "finance:approve" = true ∨
        approverUser.permissions.contains "system:admin" = true) ∧
      pendingSample.amount ≤ approverUser.financialLimit) ∧
    (enhanceUser [strippedAdminRole] adminRaw).financialLimit =
      (if adminRaw.roleId = "Administrator" then (100000 : Int)
       else if adminRaw.roleId = "Manager" then 50000 else 0) :=
  ⟨C10_ui_approval_guard.1 approverUser pendingSample (by decide),
   C10_ui_approval_guard.2 [strippedAdminRole] adminRaw strippedAdminRole (by decide)⟩

/-- The user details attached to a chat message. -/
structure MsgUser where
  id : Nat
  name : String
  avatarUrl : String
deriving DecidableEq

/-- A chat message as held in the front-end threads state. -/
structure ChatMessage where
  id : Nat
  user : MsgUser
  text : String
  timestamp : String
deriving DecidableEq

/-- A messaging thread as held in the front-end threads state
(`MessagesPage`): participants, messages, and the derived preview fields. -/
structure ChatThread where
  id : String
  title : String
  participants : List MsgUser
  messages : List ChatMessage
  lastMessage : String
  timestamp : String
  unreadCount : Nat
deriving DecidableEq

/-- The optimistic update of `handleSendMessage` (`MessagesPage` lines 54-65):
the target thread gets the optimistic message appended and its preview fields
set from it; other threads are untouched. -/
def sendMessageOptimistic (threads : List ChatThread) (threadId : String)
    (m : ChatMessage) : List ChatThread :=
  threads.map (fun t =>
    if t.id = threadId then
      { t with
        messages := t.messages ++ [m]
        lastMessage := m.text
        timestamp := m.timestamp }
    else t)

/-- The failure path of `handleSendMessage` (`MessagesPage` lines 68-84):
after the optimistic update, a failed POST is handled by calling
`fetchThreads()`, which replaces the threads state with whatever the server
returns - not with the snapshot taken before the update. -/
def handleSendMessageFailure (threads : List ChatThread) (threadId : String)
    (m : ChatMessage) (serverThreads : List ChatThread) : List ChatThread :=
  let optimistic := sendMessageOptimistic threads threadId m
  let afterRefetch := serverThreads
  let _ := optimistic
  afterRefetch

/-- The optimistic update of `handleDeleteMessage` (`MessagesPage` lines
131-143): the message is filtered out of the target thread and the preview
fields are recomputed from the new final message (object-truthiness ternary). -/
def deleteMessageOptimistic (threads : List ChatThread) (threadId : String)
    (messageId : Nat) : List ChatThread :=
  threads.map (fun t =>
    if t.id = threadId then
      let updatedMessages := t.messages.filter (fun msg => msg.id ≠ messageId)
      match updatedMessages.getLast? with
      | some lastMessage =>
          { t with
            messages := updatedMessages
            lastMessage := lastMessage.text
            timestamp := lastMessage.timestamp }
      | none =>
          { t with
            messages := updatedMessages
            lastMessage := "No messages yet." }
    else t)

/-- The failure path of `handleDeleteMessage` (`MessagesPage` lines 126-161):
the snapshot `originalThreads` is taken before the optimistic update and, on a
failed DELETE, `setThreads(originalThreads)` restores it exactly. -/
def handleDeleteMessageFailure (threads : List ChatThread) (threadId : String)
    (messageId : Nat) : List ChatThread :=
  let originalThreads := threads
  let optimistic := deleteMessageOptimistic threads threadId messageId
  let _ := optimistic
  originalThreads

/-- The failure path of `handleDeleteThread` (`MessagesPage` lines 163-185):
the thread is filtered out optimistically and, on a failed DELETE,
`setThreads(originalThreads)` restores the snapshot exactly. -/
def handleDeleteThreadFailure (threads : List ChatThread) (threadId : String) :
    List ChatThread :=
  let originalThreads := threads
  let optimistic := threads.filter (fun t => t.id ≠ threadId)
  let _ := optimistic
  originalThreads

/-- A concrete chat fixture. -/
def sampleMsgUser : MsgUser := { id := 2, name := "Manager Mike", avatarUrl := "" }

/-- A concrete chat message fixture. -/
def sampleMessage : ChatMessage :=
  { id := 10, user := sampleMsgUser, text := "Hello", timestamp := "09:00" }

/-- A concrete thread fixture holding one message. -/
def sampleThread : ChatThread :=
  { id := "1", title := "Ops", participants := [sampleMsgUser],
    messages := [sampleMessage], lastMessage := "Hello", timestamp := "09:00",
    unreadCount := 0 }

/-- A second concrete message, sent optimistically. -/
def newSampleMessage : ChatMessage :=
  { id := 11, user := sampleMsgUser, text := "Ping", timestamp := "09:05" }

/-- C4, counterexample: the send-message failure path does not restore the
pre-update snapshot. Concretely, with local state `[sampleThread]` and a
server that now returns no threads at all (for example because the thread was
deleted concurrently), the failure path leaves the state equal to the server
response, not to its value from before the optimistic update. -/
theorem C4_counterexample :
    handleSendMessageFailure [sampleThread] "1" newSampleMessage [] = [] ∧
    [sampleThread] ≠ ([] : List ChatThread) := by
  exact ⟨rfl, by decide⟩

/-- C4, amended: the delete-message and delete-thread handlers revert a failed
optimistic update to exactly the snapshot taken beforehand; the send-message
handler instead reconciles a failure by refetching, leaving the threads state
equal to the server response rather than the snapshot. -/
theorem C4_optimistic_revert :
    (∀ threads threadId messageId,
        handleDeleteMessageFailure threads threadId messageId = threads) ∧
    (∀ threads threadId,
        handleDeleteThreadFailure threads threadId = threads) ∧
    (∀ threads threadId m serverThreads,
        handleSendMessageFailure threads threadId m serverThreads = serverThreads) :=
  ⟨fun _ _ _ => rfl, fun _ _ => rfl, fun _ _ _ _ => rfl⟩

/-- An `account_heads` row (`server.js` lines 105-113): the status column is a
plain `VARCHAR(50)`. -/
structure AccountHead where
  id : Nat
  name : String
  bankName : String
  accountNumber : String
  status : String
deriving DecidableEq

/-- `POST /api/account-heads` (`server.js` lines 663-670): inserts the four
request fields verbatim, with no validation of any of them. -/
def postAccountHead (rows : List AccountHead) (nextId : Nat)
    (name bankName accountNumber status : String) :
    List AccountHead × AccountHead :=
  let row : AccountHead :=
    { id := nextId, name := name, bankName := bankName,
      accountNumber := accountNumber, status := status }
  (rows ++ [row], row)

/-- `PUT /api/account-heads/:id` (`server.js` lines 672-680): overwrites all
four fields of the row with the given id with the request values. -/
def putAccountHead (rows : List AccountHead) (id : Nat)
    (name bankName accountNumber status : String) : List AccountHead :=
  rows.map (fun r =>
    if r.id = id then
      { r with
        name := name
        bankName := bankName
        accountNumber := accountNumber
        status := status }
    else r)

/-- The approve button of `AccountHeadsPage` (lines 168 and 207): rendered
exactly when the account's status is the string `Pending Approval` and
`hasPermission('finance:approve')` accepts the current user. -/
def approveOffered (u : EnhancedUser) (acc : AccountHead) : Bool :=
  decide (acc.status = "Pending Approval") && hasPermission (some u) "finance:approve"

/-- `handleApproveConfirm` (`AccountHeadsPage.tsx` lines 44-60): issues the
PUT above with the selected account's fields and status `Active`. -/
def handleApproveConfirm (rows : List AccountHead) (acc : AccountHead) :
    List AccountHead :=
  putAccountHead rows acc.id acc.name acc.bankName acc.accountNumber "Active"

/-- Request body of an account-head creation. -/
structure AccountHeadRequest where
  name : String
  bankName : String
  accountNumber : String
  status : String
deriving DecidableEq

/-- Modelled from the spec: `AddAccountHeadModal` is not under `src/` (only
its caller `handleAddAccount` in `AccountHeadsPage.tsx` is). The spec calls an
account head "a bank-account record requiring approval before becoming
Active", so the creation form submits the new record with status
`Pending Approval`. -/
def addAccountHeadForm (name bankName accountNumber : String) : AccountHeadRequest :=
  { name := name, bankName := bankName, accountNumber := accountNumber,
    status := "Pending Approval" }

/-- Modelled from the spec: `EditAccountHeadModal` is not under `src/` (only
its caller `handleUpdateAccount` is). Per the spec an account head becomes
Active only through approval, so the edit form updates the bank-account
fields and submits the account's current status unchanged. -/
def editAccountHeadForm (acc : AccountHead) (name bankName accountNumber : String) :
    AccountHead :=
  { acc with name := name, bankName := bankName, accountNumber := accountNumber }

/-- The operations `AccountHeadsPage` performs on account heads (besides
delete, which cannot produce an Active row): creating through the add form,
editing through the edit form, and the guarded approve action. -/
inductive AHOp where
  | add (name bankName accountNumber : String)
  | edit (id : Nat) (name bankName accountNumber : String)
  | approve (u : EnhancedUser) (id : Nat)

/-- Account-head table plus the next SERIAL id. -/
structure AHState where
  rows : List AccountHead
  nextId : Nat

/-- Effect of one page-level account-head operation on the stored table. -/
def applyAHOp (s : AHState) (op : AHOp) : AHState :=
  match op with
  | .add name bankName accountNumber =>
      let req := addAccountHeadForm name bankName accountNumber
      let out := postAccountHead s.rows s.nextId req.name req.bankName
        req.accountNumber req.status
      ⟨out.1, s.nextId + 1⟩
  | .edit id name bankName accountNumber =>
      match s.rows.find? (fun r => r.id = id) with
      | some acc =>
          let upd := editAccountHeadForm acc name bankName accountNumber
          ⟨putAccountHead s.rows id upd.name upd.bankName upd.accountNumber
            upd.status, s.nextId⟩
      | none => s
  | .approve u id =>
      match s.rows.find? (fun r => r.id = id) with
      | some acc =>
          if approveOffered u acc then ⟨handleApproveConfirm s.rows acc, s.nextId⟩
          else s
      | none => s

/-- Status of the account head with the given id. -/
def accStatus (rows : List AccountHead) (id : Nat) : Option String :=
  (rows.find? (fun r => r.id = id)).map (fun r => r.status)

/-- Auxiliary: a PUT on an existing account id stores the supplied status for
that id. -/
theorem accStatus_put_self (name bankName accountNumber st : String) (id : Nat) :
    ∀ rows : List AccountHead,
      rows.any (fun r => r.id = id) = true →
      accStatus (putAccountHead rows id name bankName accountNumber st) id = some st
  | [], hany => by simp at hany
  | r :: rows, hany => by
      by_cases hr : r.id = id
      · simp only [putAccountHead, List.map_cons, if_pos hr, accStatus]
        rw [List.find?_cons_of_pos _ (by simpa using hr)]
        rfl
      · have hrest : rows.any (fun r => r.id = id) = true := by
          simp only [List.any_cons, Bool.or_eq_true, decide_eq_true_eq] at hany
          rcases hany with hc | hc
          · exact absurd hc hr
          · exact hc
        have ih := accStatus_put_self name bankName accountNumber st id rows hrest
        simp only [putAccountHead, List.map_cons, if_neg hr, accStatus] at *
        rw [List.find?_cons_of_neg _ (by simpa using hr)]
        exact ih

/-- Auxiliary: a PUT on an account id leaves every other id's status
unchanged. -/
theorem accStatus_put_other (name bankName accountNumber st : String) (id i : Nat)
    (hi : i ≠ id) :
    ∀ rows : List AccountHead,
      accStatus (putAccountHead rows id name bankName accountNumber st) i =
        accStatus rows i
  | [] => rfl
  | r :: rows => by
      have ih := accStatus_put_other name bankName accountNumber st id i hi rows
      by_cases hri : r.id = i
      · have hr : ¬ r.id = id := by rw [hri]; exact fun hh => hi (hri ▸ hh)
        simp only [putAccountHead, List.map_cons, if_neg hr, accStatus]
        rw [List.find?_cons_of_pos _ (by simpa using hri),
          List.find?_cons_of_pos _ (by simpa using hri)]
      · by_cases hr : r.id = id
        · simp only [putAccountHead, List.map_cons, if_pos hr, accStatus] at *
          rw [List.find?_cons_of_neg _ (by simpa using hri),
            List.find?_cons_of_neg _ (by simpa using hri)]
          exact ih
        · simp only [putAccountHead, List.map_cons, if_neg hr, accStatus] at *
          rw [List.find?_cons_of_neg _ (by simpa using hri),
            List.find?_cons_of_neg _ (by simpa using hri)]
          exact ih

/-- A concrete account head awaiting approval. -/
def pendingAccount : AccountHead :=
  { id := 3, name := "Operations", bankName := "Gulf Bank",
    accountNumber := "AE120034", status := "Pending Approval" }

/-- C5, counterexample: the approve action is not restricted to holders of the
`finance:approve` permission. A logged-in user whose permission list is
exactly `["system:admin"]` is offered the approve button on a pending account
head although `finance:approve` is not among their permissions - the
`hasPermission` bypass at `useAuth.ts` line 257 unlocks it. -/
theorem C5_counterexample :
    approveOffered adminOnlyUser pendingAccount = true ∧
    adminOnlyUser.permissions.contains "finance:approve" = false := by
  decide

/-- C5, amended: the approve action is offered only when the account's status
is `Pending Approval` and `hasPermission('finance:approve')` accepts the user -
that is, when the user's permission list contains `finance:approve` or
contains `system:admin`; and with the add and edit forms (absent from `src/`,
modelled from the spec as creating heads in `Pending Approval` and leaving the
status unchanged), an account head can only become Active through a permitted
approval of a `Pending Approval` account. -/
theorem C5_account_head_approval :
    (∀ (u : EnhancedUser) (acc : AccountHead),
        approveOffered u acc = true →
          acc.status = "Pending Approval" ∧
          (u.permissions.contains "finance:approve" = true ∨
            u.permissions.contains "system:admin" = true)) ∧
    (∀ s op i, accStatus (applyAHOp s op).rows i = some "Active" →
        accStatus s.rows i = some "Active" ∨
        ∃ u, op = AHOp.approve u i ∧
          accStatus s.rows i = some "Pending Approval" ∧
          hasPermission (some u) "finance:approve" = true) := by
  constructor
  · intro u acc h
    simp only [approveOffered, Bool.and_eq_true, decide_eq_true_eq] at h
    obtain ⟨hpend, hperm⟩ := h
    refine ⟨hpend, ?_⟩
    simp only [hasPermission] at hperm
    by_cases hsys : u.permissions.contains "system:admin" = true
    · exact Or.inr hsys
    · rw [if_neg hsys] at hperm
      exact Or.inl hperm
  · intro s op i hact
    cases op with
    | add name bankName accountNumber =>
        left
        simp only [applyAHOp, postAccountHead, addAccountHeadForm, accStatus,
          List.find?_append] at hact ⊢
        cases hf : s.rows.find? (fun r => r.id = i) with
        | some r => rw [hf] at hact; simpa using hact
        | none =>
            rw [hf] at hact
            simp only [Option.none_or] at hact
            by_cases hid : s.nextId = i
            · rw [List.find?_cons_of_pos _ (by simpa using hid)] at hact
              simp at hact
            · rw [List.find?_cons_of_neg _ (by simpa using hid)] at hact
              simp at hact
    | edit id name bankName accountNumber =>
        left
        cases hf : s.rows.find? (fun r => r.id = id) with
        | none => simp only [applyAHOp, hf] at hact; exact hact
        | some acc =>
            simp only [applyAHOp, hf, editAccountHeadForm] at hact
            by_cases hii : i = id
            · subst hii
              have hmem : acc ∈ s.rows := List.mem_of_find?_eq_some hf
              have hpid : acc.id = i := by simpa using List.find?_some hf
              have hany : s.rows.any (fun r => r.id = i) = true :=
                List.any_eq_true.mpr ⟨acc, hmem, by simpa using hpid⟩
              rw [accStatus_put_self _ _ _ _ _ _ hany] at hact
              simp only [accStatus, hf]
              simpa using hact
            · rw [accStatus_put_other _ _ _ _ _ _ hii] at hact
              exact hact
    | approve u id =>
        cases hf : s.rows.find? (fun r => r.id = id) with
        | none => simp only [applyAHOp, hf] at hact; exact Or.inl hact
        | some acc =>
            by_cases hoff : approveOffered u acc = true
            · simp only [applyAHOp, hf] at hact
              rw [if_pos hoff] at hact
              have hai : acc.id = id := by simpa using List.find?_some hf
              by_cases hii : i = id
              · subst hii
                right
                refine ⟨u, rfl, ?_, ?_⟩
                · have hpend : acc.status = "Pending Approval" := by
                    simp only [approveOffered, Bool.and_eq_true,
                      decide_eq_true_eq] at hoff
                    exact hoff.1
                  simp only [accStatus, hf]
                  simp [hpend]
                · simp only [approveOffered, Bool.and_eq_true] at hoff
                  exact hoff.2
              · simp only [handleApproveConfirm, hai] at hact
                rw [accStatus_put_other _ _ _ _ _ _ hii] at hact
                exact Or.inl hact
            · simp only [applyAHOp, hf] at hact
              rw [if_neg hoff] at hact
              exact Or.inl hact

/-- C5, witness: the theorem applied at concrete inputs: the seeded manager is
offered the approve button on the pending account, and approving it is
accounted for by the approval branch. -/
theorem C5_witness :
    (pendingAccount.status = "Pending Approval" ∧
      (approverUser.permissions.contains "finance:approve" = true ∨
        approverUser.permissions.contains "system:admin" = true)) ∧
    (accStatus [pendingAccount] 3 = some "Active" ∨
      ∃ u, AHOp.approve approverUser 3 = AHOp.approve u 3 ∧
        accStatus [pendingAccount] 3 = some "Pending Approval" ∧
        hasPermission (some u) "finance:approve" = true) :=
  ⟨C5_account_head_approval.1 approverUser pendingAccount (by decide),
   C5_account_head_approval.2 ⟨[pendingAccount], 4⟩ (AHOp.approve approverUser 3) 3
     (by decide)⟩

/-- A `threads` row (`server.js` lines 168-174); creation instants are
modelled as naturals. -/
structure StoredThread where
  id : Nat
  title : String
  createdAt : Nat
deriving DecidableEq

/-- A `messages` row (`server.js` lines 184-192): `user_id` is nullable
(`ON DELETE SET NULL`). -/
structure StoredMessage where
  id : Nat
  threadId : Nat
  userId : Option Nat
  text : String
  createdAt : Nat
deriving DecidableEq

/-- A `db.users` in-memory cache entry (`server.js` lines 40-48). -/
structure CachedUser where
  id : Nat
  name : String
  avatarUrl : String
deriving DecidableEq

/-- `getUserDetails` (`server.js` lines 258-261): resolves from the in-memory
user cache, with an `Unknown User` fallback. -/
def getUserDetails (users : List CachedUser) (userId : Option Nat) : MsgUser :=
  match userId.bind (fun uid => users.find? (fun u => u.id = uid)) with
  | some u => { id := u.id, name := u.name, avatarUrl := u.avatarUrl }
  | none => { id := userId.getD 0, name := "Unknown User", avatarUrl := "" }

/-- A message object as serialised by `GET /api/threads` (`server.js` lines
702-704). The locale-formatted `timestamp` string is not modelled; the raw
creation instant the formatting is applied to is carried instead. -/
structure MessageView where
  id : Nat
  user : MsgUser
  text : String
  createdAt : Nat
deriving DecidableEq

/-- A thread object as serialised by `GET /api/threads` (`server.js` lines
706-711); the locale-formatted thread timestamp is not modelled. -/
structure ThreadView where
  id : String
  title : String
  participants : List MsgUser
  messages : List MessageView
  lastMessage : String
  unreadCount : Nat
deriving DecidableEq

/-- The per-thread body of `GET /api/threads` (`server.js` lines 698-712): the
thread's messages are selected `ORDER BY created_at ASC` (modelled as an
insertion sort on the creation instant), serialised in that order, and
`lastMessage` is `lastMessage?.text || 'No messages yet.'` - the JavaScript
`||` also replaces an empty final text with the fallback string. -/
def getThreadView (users : List CachedUser) (t : StoredThread)
    (parts : List Nat) (msgs : List StoredMessage) : ThreadView :=
  let rows := List.insertionSort (fun a b => a.createdAt ≤ b.createdAt)
    (msgs.filter (fun m => m.threadId = t.id))
  let messages := rows.map (fun m =>
    { id := m.id, user := getUserDetails users m.userId, text := m.text,
      createdAt := m.createdAt : MessageView })
  { id := toString t.id
    title := t.title
    participants := parts.map (fun p => getUserDetails users (some p))
    messages := messages
    lastMessage :=
      match messages.getLast? with
      | some lm => if lm.text = "" then "No messages yet." else lm.text
      | none => "No messages yet."
    unreadCount := 0 }

/-- A concrete thread whose single message has empty text. -/
def emptyTextThread : StoredThread := { id := 5, title := "Site", createdAt := 100 }

/-- The empty-text message of `emptyTextThread`. -/
def emptyTextMessage : StoredMessage :=
  { id := 20, threadId := 5, userId := some 2, text := "", createdAt := 101 }

/-- C6, counterexample: `lastMessage` is computed with the JavaScript `||`
operator, so a thread whose final message has empty text is served with
`lastMessage = 'No messages yet.'` even though it does have messages - the
claim's `lastMessage equals the text of the final message` fails there. -/
theorem C6_counterexample :
    (getThreadView [] emptyTextThread [2] [emptyTextMessage]).lastMessage =
      "No messages yet." ∧
    ((getThreadView [] emptyTextThread [2] [emptyTextMessage]).messages.getLast?).map
      (fun m => m.text) = some "" ∧
    ("" : String) ≠ "No messages yet." := by
  decide

instance : IsTotal StoredMessage (fun a b => a.createdAt ≤ b.createdAt) :=
  ⟨fun a b => Nat.le_total a.createdAt b.createdAt⟩

instance : IsTrans StoredMessage (fun a b => a.createdAt ≤ b.createdAt) :=
  ⟨fun _ _ _ => Nat.le_trans⟩

/-- C6, amended: every thread returned by `GET /api/threads` lists its
messages in ascending order of creation time, and its `lastMessage` field
equals the text of the final message in that order whenever that text is
non-empty; it is `No messages yet.` when the thread has no messages (and also,
through the JavaScript `||`, when the final text is the empty string). -/
theorem C6_thread_view :
    (∀ users t parts msgs,
        List.Sorted (fun a b : MessageView => a.createdAt ≤ b.createdAt)
          (getThreadView users t parts msgs).messages) ∧
    (∀ users t parts msgs,
        (getThreadView users t parts msgs).messages = [] →
        (getThreadView users t parts msgs).lastMessage = "No messages yet.") ∧
    (∀ users t parts msgs m,
        (getThreadView users t parts msgs).messages.getLast? = some m →
        m.text ≠ "" →
        (getThreadView users t parts msgs).lastMessage = m.text) := by
  refine ⟨?_, ?_, ?_⟩
  · intro users t parts msgs
    simp only [getThreadView]
    exact List.Pairwise.map _ (fun a b hab => hab)
      (List.sorted_insertionSort _ _)
  · intro users t parts msgs h
    simp only [getThreadView] at h ⊢
    rw [h]
    rfl
  · intro users t parts msgs m h hm
    simp only [getThreadView] at h ⊢
    rw [h]
    simp only []
    rw [if_neg hm]

/-- A concrete thread fixture for the witness. -/
def sampleStoredThread : StoredThread :=
  { id := 6, title := "Maintenance", createdAt := 50 }

/-- The message of `sampleStoredThread`. -/
def sampleStoredMessage : StoredMessage :=
  { id := 21, threadId := 6, userId := some 2, text := "Pump fixed",
    createdAt := 60 }

/-- C6, witness: the theorem applied at a concrete thread with one non-empty
message: its `lastMessage` is that message's text. -/
theorem C6_witness :
    (getThreadView [] sampleStoredThread [2] [sampleStoredMessage]).lastMessage =
      "Pump fixed" :=
  C6_thread_view.2.2 [] sampleStoredThread [2] [sampleStoredMessage]
    { id := 21, user := getUserDetails [] (some 2), text := "Pump fixed",
      createdAt := 60 }
    (by decide) (by decide)

/-- A `users` row as stored (`server.js` lines 82-94). -/
structure StoredUser where
  id : Nat
  name : String
  email : String
  password : String
  roleId : String
  status : String
  avatarUrl : Option String
  mobile : Option String
deriving DecidableEq

/-- A `projects` row (`server.js` lines 97-103). -/
structure Project where
  id : Nat
  name : String
  status : String
deriving DecidableEq

/-- A `tasks` row (`server.js` lines 194-203). -/
structure TaskRow where
  id : Nat
  name : String
  description : String
  deadline : String
  isCompleted : Bool
  assignedToUserId : Option Nat
deriving DecidableEq

/-- An `announcements` row (`server.js` lines 205-214). -/
structure Announcement where
  id : Nat
  title : String
  content : String
  authorName : String
deriving DecidableEq

/-- The common shape of the checking DELETE handlers (`server.js`: users
447-459, projects 644-651, payment instructions 535-548, tasks 861-873,
announcements 899-906): run `DELETE WHERE id = $1`, then 404 when no row was
deleted and 204 otherwise. -/
def deleteById {α : Type} (getId : α → Nat) (rows : List α) (id : Nat) :
    Nat × List α :=
  let remaining := rows.filter (fun r => getId r ≠ id)
  if rows.any (fun r => getId r = id) then (204, remaining) else (404, remaining)

/-- `DELETE /api/users/:id` (`server.js` lines 447-459). -/
def deleteUserHandler (rows : List StoredUser) (id : Nat) : Nat × List StoredUser :=
  deleteById StoredUser.id rows id

/-- `DELETE /api/projects/:id` (`server.js` lines 644-651). -/
def deleteProjectHandler (rows : List Project) (id : Nat) : Nat × List Project :=
  deleteById Project.id rows id

/-- `DELETE /api/finance/payment-instructions/:id` (`server.js` lines 535-548,
checking through `RETURNING id`). -/
def deleteInstructionHandler (rows : List PaymentInstruction) (id : Nat) :
    Nat × List PaymentInstruction :=
  deleteById PaymentInstruction.id rows id

/-- `DELETE /api/tasks/:id` (`server.js` lines 861-873). -/
def deleteTaskHandler (rows : List TaskRow) (id : Nat) : Nat × List TaskRow :=
  deleteById TaskRow.id rows id

/-- `DELETE /api/announcements/:id` (`server.js` lines 899-906). -/
def deleteAnnouncementHandler (rows : List Announcement) (id : Nat) :
    Nat × List Announcement :=
  deleteById Announcement.id rows id

/-- `DELETE /api/account-heads/:id` (`server.js` lines 682-688): unlike every
other delete handler, it never inspects the row count and replies 204
unconditionally. -/
def deleteAccountHeadHandler (rows : List AccountHead) (id : Nat) :
    Nat × List AccountHead :=
  (204, rows.filter (fun r => r.id ≠ id))

/-- Auxiliary: a checking delete on an absent id replies 404 and leaves the
table unchanged. -/
theorem deleteById_missing {α : Type} (getId : α → Nat) (rows : List α) (id : Nat)
    (h : rows.any (fun r => getId r = id) = false) :
    deleteById getId rows id = (404, rows) := by
  simp only [deleteById]
  rw [if_neg (by simp [h])]
  have hall : ∀ r ∈ rows, ¬ getId r = id := by
    intro r hr
    have := List.any_eq_false.mp h r hr
    simpa using this
  have : rows.filter (fun r => getId r ≠ id) = rows := by
    apply List.filter_eq_self.mpr
    intro a ha
    simpa using hall a ha
  rw [this]

/-- Auxiliary: a checking delete on a present id replies 204 and removes the
matching rows. -/
theorem deleteById_present {α : Type} (getId : α → Nat) (rows : List α) (id : Nat)
    (h : rows.any (fun r => getId r = id) = true) :
    (deleteById getId rows id).1 = 204 ∧
    (deleteById getId rows id).2 = rows.filter (fun r => getId r ≠ id) := by
  simp only [deleteById]
  rw [if_pos (by simpa using h)]
  exact ⟨rfl, rfl⟩

/-- C7, counterexample: `DELETE /api/account-heads/:id` does not reply 404 on
a missing row: on an empty table it replies 204 although no row with id 1
exists. -/
theorem C7_counterexample :
    (deleteAccountHeadHandler [] 1).1 = 204 ∧
    (deleteAccountHeadHandler [] 1).1 ≠ 404 ∧
    ([] : List AccountHead).any (fun r => r.id = 1) = false := by
  decide

/-- C7, amended: the delete endpoints for users, projects, payment
instructions, tasks and announcements respond 404 when no row with the given
id exists and 204 (removing the row) when one does; the account-heads delete
endpoint alone responds 204 unconditionally, even for a missing id. -/
theorem C7_delete_status_codes :
    (∀ rows id, rows.any (fun r : StoredUser => r.id = id) = false →
        deleteUserHandler rows id = (404, rows)) ∧
    (∀ rows id, rows.any (fun r : StoredUser => r.id = id) = true →
        (deleteUserHandler rows id).1 = 204 ∧
        (deleteUserHandler rows id).2 = rows.filter (fun r => r.id ≠ id)) ∧
    (∀ rows id, rows.any (fun r : Project => r.id = id) = false →
        deleteProjectHandler rows id = (404, rows)) ∧
    (∀ rows id, rows.any (fun r : Project => r.id = id) = true →
        (deleteProjectHandler rows id).1 = 204 ∧
        (deleteProjectHandler rows id).2 = rows.filter (fun r => r.id ≠ id)) ∧
    (∀ rows id, rows.any (fun r : PaymentInstruction => r.id = id) = false →
        deleteInstructionHandler rows id = (404, rows)) ∧
    (∀ rows id, rows.any (fun r : PaymentInstruction => r.id = id) = true →
        (deleteInstructionHandler rows id).1 = 204 ∧
        (deleteInstructionHandler rows id).2 = rows.filter (fun r => r.id ≠ id)) ∧
    (∀ rows id, rows.any (fun r : TaskRow => r.id = id) = false →
        deleteTaskHandler rows id = (404, rows)) ∧
    (∀ rows id, rows.any (fun r : TaskRow => r.id = id) = true →
        (deleteTaskHandler rows id).1 = 204 ∧
        (deleteTaskHandler rows id).2 = rows.filter (fun r => r.id ≠ id)) ∧
    (∀ rows id, rows.any (fun r : Announcement => r.id = id) = false →
        deleteAnnouncementHandler rows id = (404, rows)) ∧
    (∀ rows id, rows.any (fun r : Announcement => r.id = id) = true →
        (deleteAnnouncementHandler rows id).1 = 204 ∧
        (deleteAnnouncementHandler rows id).2 = rows.filter (fun r => r.id ≠ id)) ∧
    (∀ rows id, deleteAccountHeadHandler rows id =
        (204, rows.filter (fun r => r.id ≠ id))) :=
  ⟨fun rows id h => deleteById_missing _ rows id h,
   fun rows id h => deleteById_present _ rows id h,
   fun rows id h => deleteById_missing _ rows id h,
   fun rows id h => deleteById_present _ rows id h,
   fun rows id h => deleteById_missing _ rows id h,
   fun rows id h => deleteById_present _ rows id h,
   fun rows id h => deleteById_missing _ rows id h,
   fun rows id h => deleteById_present _ rows id h,
   fun rows id h => deleteById_missing _ rows id h,
   fun rows id h => deleteById_present _ rows id h,
   fun _ _ => rfl⟩

/-- A concrete project row. -/
def sampleProject : Project := { id := 9, name := "Tower A", status := "Active" }

/-- C7, witness: the theorem applied at concrete tables: deleting a missing
project id replies 404 with the table intact; deleting a present one replies
204 and removes the row. -/
theorem C7_witness :
    deleteProjectHandler [sampleProject] 8 = (404, [sampleProject]) ∧
    (deleteProjectHandler [sampleProject] 9).1 = 204 ∧
    (deleteProjectHandler [sampleProject] 9).2 =
      [sampleProject].filter (fun r => r.id ≠ 9) :=
  ⟨C7_delete_status_codes.2.2.1 [sampleProject] 8 (by decide),
   C7_delete_status_codes.2.2.2.1 [sampleProject] 9 (by decide)⟩

/-- `POST /api/projects` (`server.js` lines 624-632): 400 when `name` or
`status` is falsy, otherwise inserts the row and returns it. -/
def projectsPost (rows : List Project) (nextId : Nat) (name status : String) :
    Except Nat (List Project × Project) :=
  if name = "" || status = "" then .error 400
  else
    let p : Project := { id := nextId, name := name, status := status }
    .ok (rows ++ [p], p)

/-- `GET /api/projects` (`server.js` lines 618-623): returns the project rows
`ORDER BY name ASC` (modelled as an insertion sort on the name). -/
def projectsGet (rows : List Project) : List Project :=
  List.insertionSort (fun a b => a.name ≤ b.name) rows

/-- C8: for every project created through POST with a (truthy) name and
status, a subsequent GET returns a row whose name and status equal the
submitted values. -/
theorem C8_project_round_trip :
    ∀ rows nextId name status out,
      projectsPost rows nextId name status = .ok out →
      ∃ p ∈ projectsGet out.1, p.name = name ∧ p.status = status := by
  intro rows nextId name status out hok
  simp only [projectsPost] at hok
  split at hok
  · exact absurd hok (by simp)
  · cases hok
    refine ⟨{ id := nextId, name := name, status := status }, ?_, rfl, rfl⟩
    have hmem : ({ id := nextId, name := name, status := status } : Project) ∈
        rows ++ [{ id := nextId, name := name, status := status }] := by simp
    exact ((List.perm_insertionSort _ _).mem_iff).mpr hmem

/-- C8, witness: the theorem applied at a concrete creation on an empty
table. -/
theorem C8_witness :
    ∃ p ∈ projectsGet [{ id := 1, name := "Marina Pumps", status := "Active" : Project }],
      p.name = "Marina Pumps" ∧ p.status = "Active" :=
  C8_project_round_trip [] 1 "Marina Pumps" "Active"
    ([{ id := 1, name := "Marina Pumps", status := "Active" }],
      { id := 1, name := "Marina Pumps", status := "Active" }) rfl

/-- The user object returned by a successful login (`server.js` line 373):
the stored row with the `password` field destructured away - the type itself
has no password field. -/
structure PublicUser where
  id : Nat
  name : String
  email : String
  roleId : String
  status : String
  avatarUrl : Option String
  mobile : Option String
deriving DecidableEq

/-- The destructuring at `server.js` line 373, which builds
`userWithoutPassword`: every stored field except the password. -/
def stripPassword (u : StoredUser) : PublicUser :=
  { id := u.id, name := u.name, email := u.email, roleId := u.roleId,
    status := u.status, avatarUrl := u.avatarUrl, mobile := u.mobile }

/-- Outcome of `POST /api/login`: 200 with the user object, 401, or 400. -/
inductive LoginResult where
  | ok (user : PublicUser)
  | unauthorized
  | badRequest
deriving DecidableEq

/-- `POST /api/login` (`server.js` lines 363-382): 400 when `email` or
`password` is falsy (absent or empty); otherwise the user is looked up by
email and the response is 200 with the password-stripped row when the stored
password equals the supplied one, and 401 otherwise (no such email, or a
password mismatch). -/
def postLogin (users : List StoredUser) (email password : Option String) :
    LoginResult :=
  match email, password with
  | some e, some p =>
      if e = "" || p = "" then .badRequest
      else
        match users.find? (fun u => u.email = e) with
        | some u => if u.password = p then .ok (stripPassword u) else .unauthorized
        | none => .unauthorized
  | _, _ => .badRequest

/-- C9: `POST /api/login` returns 200 with the matched, password-stripped user
object iff a user with the given email exists whose stored password equals the
supplied one (emails are unique by the DDL constraint); it returns 401 when
both fields are supplied but do not match any user, and 400 when either is
missing (absent or empty, per the JavaScript truthiness test); every 200
payload is the password-free projection of a stored row. -/
theorem C9_login_spec :
    (∀ users (email password : Option String),
        email.getD "" = "" ∨ password.getD "" = "" →
        postLogin users email password = .badRequest) ∧
    (∀ users e p v, e ≠ "" → p ≠ "" →
        List.Pairwise (fun a b : StoredUser => a.email ≠ b.email) users →
        (postLogin users (some e) (some p) = .ok v ↔
          ∃ u ∈ users, u.email = e ∧ u.password = p ∧ v = stripPassword u)) ∧
    (∀ users e p, e ≠ "" → p ≠ "" →
        (¬ ∃ u ∈ users, u.email = e ∧ u.password = p) →
        postLogin users (some e) (some p) = .unauthorized) ∧
    (∀ users (email password : Option String) v,
        postLogin users email password = .ok v →
        ∃ u ∈ users, v = stripPassword u) := by
  have hsym : Symmetric (fun a b : StoredUser => a.email ≠ b.email) :=
    fun a b hab hba => hab hba.symm
  refine ⟨?_, ?_, ?_, ?_⟩
  · intro users email password h
    cases email with
    | none => rfl
    | some e =>
        cases password with
        | none => rfl
        | some p =>
            simp only [Option.getD_some] at h
            simp only [postLogin]
            rw [if_pos (by simpa using h)]
  · intro users e p v he hp hpw
    simp only [postLogin]
    rw [if_neg (by simp [he, hp])]
    cases hf : users.find? (fun u => u.email = e) with
    | none =>
        constructor
        · intro h; exact LoginResult.noConfusion h
        · rintro ⟨u, hu, hue, -, -⟩
          have := List.find?_eq_none.mp hf u hu
          exact absurd hue (by simpa using this)
    | some u =>
        have hue : u.email = e := by simpa using List.find?_some hf
        have humem : u ∈ users := List.mem_of_find?_eq_some hf
        change (if u.password = p then LoginResult.ok (stripPassword u)
          else LoginResult.unauthorized) = LoginResult.ok v ↔ _
        by_cases hupw : u.password = p
        · rw [if_pos hupw]
          constructor
          · intro h
            refine ⟨u, humem, hue, hupw, ?_⟩
            injection h with hv
            exact hv.symm
          · rintro ⟨w, hw, hwe, hwp, rfl⟩
            have hweq : w = u := by
              by_cases hwu : w = u
              · exact hwu
              · have hne := hpw.forall hsym hw humem hwu
                exact absurd (hwe.trans hue.symm) hne
            rw [hweq]
        · rw [if_neg hupw]
          constructor
          · intro h; exact LoginResult.noConfusion h
          · rintro ⟨w, hw, hwe, hwp, rfl⟩
            have hweq : w = u := by
              by_cases hwu : w = u
              · exact hwu
              · have hne := hpw.forall hsym hw humem hwu
                exact absurd (hwe.trans hue.symm) hne
            rw [hweq] at hwp
            exact absurd hwp hupw
  · intro users e p he hp hnone
    simp only [postLogin]
    rw [if_neg (by simp [he, hp])]
    cases hf : users.find? (fun u => u.email = e) with
    | none => rfl
    | some u =>
        have hue : u.email = e := by simpa using List.find?_some hf
        have humem : u ∈ users := List.mem_of_find?_eq_some hf
        change (if u.password = p then LoginResult.ok (stripPassword u)
          else LoginResult.unauthorized) = LoginResult.unauthorized
        by_cases hupw : u.password = p
        · exact absurd ⟨u, humem, hue, hupw⟩ hnone
        · rw [if_neg hupw]
  · intro users email password v h
    cases email with
    | none => exact LoginResult.noConfusion h
    | some e =>
        cases password with
        | none => exact LoginResult.noConfusion h
        | some p =>
            simp only [postLogin] at h
            by_cases hep : (e = "" || p = "") = true
            · rw [if_pos hep] at h
              exact LoginResult.noConfusion h
            · rw [if_neg hep] at h
              cases hf : users.find? (fun u => u.email = e) with
              | none => rw [hf] at h; exact LoginResult.noConfusion h
              | some u =>
                  rw [hf] at h
                  have h' : (if u.password = p then LoginResult.ok (stripPassword u)
                      else LoginResult.unauthorized) = LoginResult.ok v := h
                  by_cases hupw : u.password = p
                  · rw [if_pos hupw] at h'
                    refine ⟨u, List.mem_of_find?_eq_some hf, ?_⟩
                    injection h' with hv
                    exact hv.symm
                  · rw [if_neg hupw] at h'
                    exact LoginResult.noConfusion h'

/-- The admin row seeded by `initializeDatabase` (`server.js` line 231). -/
def seededAdmin : StoredUser :=
  { id := 1, name := "Admin User", email := "admin@tabdeel.com",
    password := "password", roleId := "Administrator", status := "Active",
    avatarUrl := some "https://picsum.photos/seed/admin/100/100", mobile := none }

/-- The manager row seeded by `initializeDatabase` (`server.js` line 232). -/
def seededManager : StoredUser :=
  { id := 2, name := "Manager Mike", email := "manager@tabdeel.com",
    password := "password", roleId := "Manager", status := "Active",
    avatarUrl := some "https://picsum.photos/seed/manager/100/100", mobile := none }

/-- C9, witness: the specification applied at the seeded table: logging in
with the admin credentials returns the password-stripped admin row. -/
theorem C9_witness :
    postLogin [seededAdmin, seededManager] (some "admin@tabdeel.com")
      (some "password") = .ok (stripPassword seededAdmin) :=
  (C9_login_spec.2.1 [seededAdmin, seededManager] "admin@tabdeel.com" "password"
      (stripPassword seededAdmin) (by decide) (by decide) (by decide)).mpr
    ⟨seededAdmin, by decide, by decide, by decide, rfl⟩
